import Mathlib

/-!
# Verification of the rutin-in habit-tracker state store

A shallow embedding of the client-side state store (`src/hooks/useHabits.ts`),
the persistence adapter (`saveHabitsToStorage` / `initLocalStorageSync`), the
serialization pair (`serializeHabits` / `deserializeHabits`) and the import
pipeline (`useUpload`'s `uploadHabits`), together with proofs and refutations
of the specified properties.

Modelling conventions:
* A JavaScript `Set<string>` is modelled as an insertion-ordered,
  duplicate-free `List String`; `new Set(arr)` keeps the first occurrence of
  each element, `add` appends, `delete` filters.
* TypeScript string fields are modelled as `String`.  The `ColorKey` union is
  a compile-time annotation only: at runtime any string can flow into the
  `color` field, which is exactly what the import claims are about, so
  `color : String` with the closed key list `colorKeys` as a predicate.
* Optional fields (`notes?: string`, `createdAt?: number`) become `Option`.
* Epoch-millisecond timestamps are `Nat`.
-/

namespace Rutin

/-- Type `ViewMode` from `src/lib/types.ts`: `'weekly' | 'overview'`. -/
inductive ViewMode where
  | weekly
  | overview
deriving DecidableEq

/-- Type `Habit` from `src/lib/types.ts`.  `completedDates : Set<string>` is
modelled as an insertion-ordered duplicate-free list. -/
structure Habit where
  id : String
  name : String
  color : String
  completedDates : List String
  notes : Option String
  createdAt : Option Nat
deriving DecidableEq

/-- Type `HabitJSON` from `src/lib/types.ts`: the serialized habit, with
`completedDates` as an array. -/
structure HabitJSON where
  id : String
  name : String
  color : String
  completedDates : List String
  notes : Option String
  createdAt : Option Nat
deriving DecidableEq

/-- Type `Partial<Habit>` as used by `updateHabit(id, updates)`: every field
optionally present.  A present field overrides the habit's field under the
spread `{ ...habit, ...updates }`. -/
structure PartialHabit where
  id : Option String := none
  name : Option String := none
  color : Option String := none
  completedDates : Option (List String) := none
  notes : Option String := none
  createdAt : Option Nat := none
deriving DecidableEq

/-- The closed set of ten `ColorKey` identifiers from `src/lib/types.ts`. -/
def colorKeys : List String :=
  ["green", "blue", "purple", "pink", "orange",
   "yellow", "teal", "red", "indigo", "gray"]

/-- The data slice of `AppState` (`src/lib/types.ts`): habits, UI state and
modal routing.  `draggedItem : HTMLElement | null` is a UI-only DOM reference,
untouched by every modelled action, and is omitted.  The sentinel `'bulk'` of
the modal fields is just a string value, so `string | 'bulk' | null` is
`Option String`. -/
structure AppState where
  habits : List Habit
  viewMode : ViewMode
  selectMode : Bool
  selectedHabits : List String
  habitToDelete : Option String
  habitToColor : Option String
  noteModalHabitId : Option String
deriving DecidableEq

/-- The store's initial state (`src/hooks/useHabits.ts`, lines 16-23). -/
def initialState : AppState :=
  { habits := []
    viewMode := ViewMode.weekly
    selectMode := false
    selectedHabits := []
    habitToDelete := none
    habitToColor := none
    noteModalHabitId := none }

/-! ## JavaScript `Set` operations on the ordered-list model -/

/-- Operation `set.add(a)`: append `a` if absent, no-op if present. -/
def jsSetAdd (s : List String) (a : String) : List String :=
  if a ∈ s then s else s ++ [a]

/-- Operation `set.delete(a)`: remove `a`, keeping the order of the rest. -/
def jsSetDelete (s : List String) (a : String) : List String :=
  s.filter (fun b => b != a)

/-- Construction `new Set(arr)`: iterate over `arr` adding each element; keeps the first
occurrence of each element, in order. -/
def jsSetOfList (l : List String) : List String :=
  l.foldl jsSetAdd []

/-- Lookup `new Map(habits.map(h => [h.id, h])).get(i)`: the value stored under key
`i` is the *last* habit in the list whose id is `i` (later entries overwrite
earlier ones during `Map` construction). -/
def habitMapGet : List Habit → String → Option Habit
  | [], _ => none
  | h :: t, i =>
    match habitMapGet t i with
    | some h' => some h'
    | none => if h.id == i then some h else none

/-! ## Store actions (`src/hooks/useHabits.ts`) -/

/-- Spread `{ ...habit, ...updates }`: fields present in `updates` win. -/
def applyUpdate (h : Habit) (u : PartialHabit) : Habit :=
  { id := u.id.getD h.id
    name := u.name.getD h.name
    color := u.color.getD h.color
    completedDates := u.completedDates.getD h.completedDates
    notes := match u.notes with
      | some n => some n
      | none => h.notes
    createdAt := match u.createdAt with
      | some c => some c
      | none => h.createdAt }

/-- The action set of the store, one constructor per action of
`src/hooks/useHabits.ts`. -/
inductive Action where
  | setHabits (hs : List Habit)
  | addHabit (h : Habit)
  | updateHabit (id : String) (u : PartialHabit)
  | deleteHabit (id : String)
  | reorderHabits (newOrder : List String)
  | toggleDate (habitId date : String)
  | setViewMode (m : ViewMode)
  | toggleSelectMode
  | addSelectedHabit (id : String)
  | removeSelectedHabit (id : String)
  | clearSelectedHabits
  | selectAllHabits
  | setHabitToDelete (t : Option String)
  | setHabitToColor (t : Option String)
  | setNoteModalHabitId (t : Option String)
  | addNote (habitId note : String)
deriving DecidableEq

/-- One atomic store update: each case is the `set(...)` body of the
corresponding action in `src/hooks/useHabits.ts`. -/
def step (s : AppState) : Action → AppState
  | Action.setHabits hs => { s with habits := hs }
  | Action.addHabit h => { s with habits := s.habits ++ [h] }
  | Action.updateHabit id u =>
      { s with habits := s.habits.map fun h =>
          if h.id == id then applyUpdate h u else h }
  | Action.deleteHabit id =>
      { s with
        habits := s.habits.filter fun h => h.id != id
        selectedHabits := s.selectedHabits.filter fun x => x != id }
  | Action.reorderHabits newOrder =>
      { s with habits := newOrder.filterMap (habitMapGet s.habits) }
  | Action.toggleDate habitId date =>
      { s with habits := s.habits.map fun h =>
          if h.id == habitId then
            { h with completedDates :=
                if date ∈ h.completedDates then jsSetDelete h.completedDates date
                else jsSetAdd h.completedDates date }
          else h }
  | Action.setViewMode m => { s with viewMode := m }
  | Action.toggleSelectMode =>
      { s with
        selectMode := !s.selectMode
        selectedHabits := if !s.selectMode then s.selectedHabits else [] }
  | Action.addSelectedHabit id =>
      { s with selectedHabits := jsSetAdd s.selectedHabits id }
  | Action.removeSelectedHabit id =>
      { s with selectedHabits := jsSetDelete s.selectedHabits id }
  | Action.clearSelectedHabits => { s with selectedHabits := [] }
  | Action.selectAllHabits =>
      { s with selectedHabits := jsSetOfList (s.habits.map Habit.id) }
  | Action.setHabitToDelete t => { s with habitToDelete := t }
  | Action.setHabitToColor t => { s with habitToColor := t }
  | Action.setNoteModalHabitId t => { s with noteModalHabitId := t }
  | Action.addNote habitId note =>
      { s with habits := s.habits.map fun h =>
          if h.id == habitId then { h with notes := some note } else h }

/-- Run a sequence of actions from a state. -/
def run (s : AppState) (as : List Action) : AppState :=
  as.foldl step s

/-- Query `getNote(habitId)`: `habit?.notes` for the first habit with that id. -/
def getNote (s : AppState) (habitId : String) : Option String :=
  (s.habits.find? fun h => h.id == habitId).bind Habit.notes

/-- Query `hasNote(habitId)`: `Boolean(habit?.notes && habit.notes.length > 0)` —
`undefined` and the empty string are falsy, any other string is truthy and
then `length > 0` decides (no trimming anywhere). -/
def hasNote (s : AppState) (habitId : String) : Bool :=
  match (s.habits.find? fun h => h.id == habitId).bind Habit.notes with
  | some n => n.length > 0
  | none => false

/-! ## Serialization and the persistence adapter (`src/unnamed/part_000`,
`serializeHabits` / `deserializeHabits` / `saveHabitsToStorage` /
`initLocalStorageSync`) -/

/-- Function `serializeHabits`: spread every habit, converting the `completedDates` set
to an array (`Array.from` on the ordered-list model is the identity). -/
def serializeHabits (habits : List Habit) : List HabitJSON :=
  habits.map fun h =>
    { id := h.id
      name := h.name
      color := h.color
      completedDates := h.completedDates
      notes := h.notes
      createdAt := h.createdAt }

/-- Function `deserializeHabits`: spread every raw habit, rebuilding the set with
`new Set(r.completedDates || [])` (the field is non-optional in `HabitJSON`,
so the `|| []` guard is a no-op in the model). -/
def deserializeHabits (raw : List HabitJSON) : List Habit :=
  raw.map fun r =>
    { id := r.id
      name := r.name
      color := r.color
      completedDates := jsSetOfList r.completedDates
      notes := r.notes
      createdAt := r.createdAt }

/-- The durable-storage envelope `StoredPayload` of `src/unnamed/part_000`. -/
structure StoredPayload where
  version : Nat
  habits : List HabitJSON
  timestamp : Option String
deriving DecidableEq

/-- Function `saveHabitsToStorage` builds this envelope (`version: 1`, serialized
habits, ISO timestamp) and writes it to the fixed storage key; the write
itself is I/O, so the model returns the written payload. -/
def saveHabitsToStorage (habits : List Habit) (nowIso : String) : StoredPayload :=
  { version := 1
    habits := serializeHabits habits
    timestamp := some nowIso }

/-- Function `initLocalStorageSync`, bootstrap part.  `loaded` is the result of
`loadHabitsFromStorage()` (`none` when the key is absent, unparsable or
structurally invalid).  `freshId` stands for `generateHabitId()`, `todayKey`
and `yesterdayKey` for `formatDate(new Date())` and
`formatDate(new Date(Date.now() - 86400000))`, `nowMs` for `Date.now()` and
`nowIso` for the save timestamp.  Returns the updated store state and the
payload written by the immediate `saveHabitsToStorage` call (`none` when the
stored list was used and no immediate save happens). -/
def initLocalStorageSync (loaded : Option (List Habit)) (freshId : String)
    (todayKey yesterdayKey : String) (nowMs : Nat) (nowIso : String)
    (s : AppState) : AppState × Option StoredPayload :=
  match loaded with
  | some stored =>
    if stored.length > 0 then
      ({ s with habits := stored }, none)
    else
      let defaultHabit : Habit :=
        { id := freshId
          name := "Membaca Buku"
          color := "green"
          completedDates := jsSetOfList [yesterdayKey, todayKey]
          createdAt := some nowMs
          notes := some "" }
      ({ s with habits := [defaultHabit] },
       some (saveHabitsToStorage [defaultHabit] nowIso))
  | none =>
    let defaultHabit : Habit :=
      { id := freshId
        name := "Membaca Buku"
        color := "green"
        completedDates := jsSetOfList [yesterdayKey, todayKey]
        createdAt := some nowMs
        notes := some "" }
    ({ s with habits := [defaultHabit] },
     some (saveHabitsToStorage [defaultHabit] nowIso))

/-! ## The canonical date-key formatter (`formatDate`, `src/lib/constants.ts`
lines 52-57) -/

/-- A local calendar date as read off a JS `Date`: `month` is already the
1-based `getMonth() + 1`, `day` is `getDate()`. -/
structure SimpleDate where
  year : Nat
  month : Nat
  day : Nat
deriving DecidableEq

/-- Padding `String(n).padStart(2, '0')`. -/
def padStart2 (s : String) : String :=
  if s.length < 2 then "0".pushn '0' (2 - s.length - 1) ++ s else s

/-- Function `formatDate`: `` `${year}-${month padded}-${day padded}` ``. -/
def formatDate (d : SimpleDate) : String :=
  toString d.year ++ "-" ++ padStart2 (toString d.month) ++ "-" ++
    padStart2 (toString d.day)

/-! ## The import pipeline (`useUpload` in `src/unnamed/part_000`) -/

/-- A parsed JSON value (the result of `JSON.parse`).  Numbers are modelled
as naturals: the only numeric field in this data model is the
epoch-millisecond `createdAt`. -/
inductive Json where
  | null
  | bool (b : Bool)
  | num (n : Nat)
  | str (s : String)
  | arr (xs : List Json)
  | obj (fields : List (String × Json))

/-- JS truthiness of a parsed JSON value (`undefined` is handled at the
`Option` layer; `NaN`/`-0` do not survive `JSON.parse` of this data model). -/
def jsTruthy : Json → Bool
  | Json.null => false
  | Json.bool b => b
  | Json.num n => n != 0
  | Json.str s => s != ""
  | Json.arr _ => true
  | Json.obj _ => true

/-- Test `typeof v === 'object'` for a parsed JSON value: true for `null`, arrays
and objects. -/
def jsTypeofObject : Json → Bool
  | Json.null => true
  | Json.arr _ => true
  | Json.obj _ => true
  | _ => false

/-- Property lookup on an object's field list; `JSON.parse` keeps the last
occurrence of a duplicated key. -/
def lookupLast : List (String × Json) → String → Option Json
  | [], _ => none
  | (k', v) :: t, k =>
    match lookupLast t k with
    | some r => some r
    | none => if k' == k then some v else none

/-- Access `v.k`: property access; `none` models `undefined` (primitives and arrays
have no own string-keyed data properties here). -/
def jsonGet : Json → String → Option Json
  | Json.obj fields, k => lookupLast fields k
  | _, _ => none

/-- Coercion `h.k || dflt` for a field that the data model declares as a string.
Faithful for string, absent, `null` and `false`/`0` values (a truthy value of
another primitive type would be stored verbatim by the untyped JS; no claim
depends on such inputs and they are mapped to the default here). -/
def jsStrFieldOr (h : Json) (k : String) (dflt : String) : String :=
  match jsonGet h k with
  | some (Json.str s) => if s == "" then dflt else s
  | _ => dflt

/-- Field `h.id` stored verbatim; an absent or non-string id (stored as `undefined`
by the JS) is represented by `""`.  No claim depends on that case. -/
def jsIdField (h : Json) : String :=
  match jsonGet h "id" with
  | some (Json.str s) => s
  | _ => ""

/-- Field `completedDates`: the construction `new Set(h.completedDates || [])` for an array-of-strings field; absent
and falsy values give the empty set. -/
def jsDatesField (h : Json) : List String :=
  match jsonGet h "completedDates" with
  | some (Json.arr xs) =>
    jsSetOfList (xs.filterMap fun x =>
      match x with
      | Json.str s => some s
      | _ => none)
  | _ => []

/-- Field `h.createdAt || Date.now()`: a present non-zero number is kept, a missing
or zero (falsy) value becomes the current time. -/
def jsCreatedAtField (h : Json) (now : Nat) : Nat :=
  match jsonGet h "createdAt" with
  | some (Json.num n) => if n == 0 then now else n
  | _ => now

/-- The per-element mapping of `uploadHabits` (`data.habits.map(h => ...)`). -/
def importMapHabit (now : Nat) (h : Json) : Habit :=
  { id := jsIdField h
    name := jsStrFieldOr h "name" "Untitled"
    color := jsStrFieldOr h "color" "green"
    completedDates := jsDatesField h
    notes := some (jsStrFieldOr h "notes" "")
    createdAt := some (jsCreatedAtField h now) }

/-- The outcome `uploadHabits` reports (alerts / silent return in the JS).
`versionTypeError` and `nullElement` are the two `TypeError` throws that the
`catch` turns into the generic `Import failed: ...` alert. -/
inductive UploadResult where
  | parseError
  | invalidFormat
  | missingHabits
  | versionTypeError
  | versionDeclined
  | nullElement
  | emptyImport
  | success (n : Nat)
deriving DecidableEq

/-- Outcome of evaluating the condition
`data.version && !data.version.startsWith('1.')`. -/
inductive VersionCheck where
  | noPrompt
  | prompt
  | typeError
deriving DecidableEq

/-- Check `data.version && !data.version.startsWith('1.')`: a falsy or absent
version short-circuits to no prompt; a truthy version string prompts exactly
when it does not start with `"1."`; a truthy NON-string version has no
`startsWith` method, so the condition itself throws a `TypeError`. -/
def versionCheck (data : Json) : VersionCheck :=
  match jsonGet data "version" with
  | some (Json.str v) =>
    if v == "" then VersionCheck.noPrompt
    else if v.startsWith "1." then VersionCheck.noPrompt
    else VersionCheck.prompt
  | some w => if jsTruthy w then VersionCheck.typeError else VersionCheck.noPrompt
  | none => VersionCheck.noPrompt

/-- The tail of `uploadHabits` after the habits array is in hand and the
version check has passed: map the elements (a `null` element makes the JS
`h.id` access throw a `TypeError`), reject an empty result, otherwise replace
the store's habits. -/
def uploadFinish (hs : List Json) (now : Nat) (s : AppState) :
    AppState × UploadResult :=
  if hs.any (fun h => match h with | Json.null => true | _ => false) then
    (s, UploadResult.nullElement)
  else
    let importedHabits := hs.map (importMapHabit now)
    if importedHabits.length == 0 then
      (s, UploadResult.emptyImport)
    else
      (step s (Action.setHabits importedHabits),
       UploadResult.success importedHabits.length)

/-- Function `uploadHabits` of `useUpload`.  `parsed` is the outcome of
`JSON.parse(text)` (`Except.error ()` models a `SyntaxError`),
`confirmProceed` the user's answer to the version-mismatch `confirm`, `now`
is `Date.now()`.  Returns the store state after the call together with the
reported outcome; every failure leaves the state untouched.  The two
`TypeError` throws of the source — a truthy non-string `version` field (no
`startsWith` method) and a `null` habits-array element (`h.id` access) — are
modelled as the explicit outcomes `versionTypeError` and `nullElement`, both
caught by the JS `catch` as a generic failure alert, again without
mutation. -/
def uploadHabits (parsed : Except Unit Json) (confirmProceed : Bool)
    (now : Nat) (s : AppState) : AppState × UploadResult :=
  match parsed with
  | Except.error _ => (s, UploadResult.parseError)
  | Except.ok data =>
    if !(jsTruthy data) || !(jsTypeofObject data) then
      (s, UploadResult.invalidFormat)
    else
      match jsonGet data "habits" with
      | some (Json.arr hs) =>
        match versionCheck data with
        | VersionCheck.typeError => (s, UploadResult.versionTypeError)
        | VersionCheck.prompt =>
          if !confirmProceed then (s, UploadResult.versionDeclined)
          else uploadFinish hs now s
        | VersionCheck.noPrompt => uploadFinish hs now s
      | _ => (s, UploadResult.missingHabits)

/-! ## Invariants and guarded traces -/

/-- The referential selection invariant of the spec: every id in
`selectedHabits` belongs to some habit in `habits`. -/
def selectionInvariant (s : AppState) : Prop :=
  ∀ i ∈ s.selectedHabits, ∃ h ∈ s.habits, h.id = i

/-- The select-mode invariant of the spec: `selectMode = false` implies an
empty selection. -/
def modeInvariant (s : AppState) : Prop :=
  s.selectMode = false → s.selectedHabits = []

/-- Guard under which an action preserves `selectionInvariant`: selection ids
are only added when a matching habit exists, wholesale habit replacement and
reordering keep every selected id, and updates do not override `id`. -/
def selectionSafeB (s : AppState) : Action → Bool
  | Action.setHabits hs =>
      s.selectedHabits.all fun i => hs.any fun h => h.id == i
  | Action.updateHabit _ u => u.id.isNone
  | Action.reorderHabits newOrder =>
      s.selectedHabits.all fun i => newOrder.any fun j => j == i
  | Action.addSelectedHabit i => s.habits.any fun h => h.id == i
  | _ => true

/-- Guard under which an action preserves `modeInvariant`: ids are only
selected while select mode is on. -/
def modeSafeB (s : AppState) : Action → Bool
  | Action.addSelectedHabit _ => s.selectMode
  | Action.selectAllHabits => s.selectMode
  | _ => true

/-- A run of actions each of which satisfies the guard `P` in the state where
it is invoked. -/
inductive SafeRun (P : AppState → Action → Bool) : AppState → List Action → Prop
  | nil (s : AppState) : SafeRun P s []
  | cons (s : AppState) (a : Action) (as : List Action) :
      P s a = true → SafeRun P (step s a) as → SafeRun P s (a :: as)

/-! ## Helper lemmas on the JS `Set` and `Map` models -/

theorem mem_jsSetAdd {s : List String} {a x : String} :
    x ∈ jsSetAdd s a ↔ x ∈ s ∨ x = a := by
  unfold jsSetAdd
  by_cases h : a ∈ s
  · rw [if_pos h]
    constructor
    · exact Or.inl
    · rintro (hx | rfl)
      · exact hx
      · exact h
  · rw [if_neg h]
    simp

theorem mem_foldl_jsSetAdd (l : List String) :
    ∀ (init : List String) (x : String),
      x ∈ l.foldl jsSetAdd init ↔ x ∈ init ∨ x ∈ l := by
  induction l with
  | nil => intro init x; simp
  | cons a t ih =>
    intro init x
    rw [List.foldl_cons, ih, mem_jsSetAdd]
    simp only [List.mem_cons]
    tauto

theorem mem_jsSetOfList {l : List String} {x : String} :
    x ∈ jsSetOfList l ↔ x ∈ l := by
  unfold jsSetOfList
  rw [mem_foldl_jsSetAdd]
  simp

theorem mem_jsSetDelete {s : List String} {a x : String} :
    x ∈ jsSetDelete s a ↔ x ∈ s ∧ x ≠ a := by
  simp [jsSetDelete, List.mem_filter]

theorem habitMapGet_mem {hs : List Habit} {i : String} {h : Habit} :
    habitMapGet hs i = some h → h ∈ hs ∧ h.id = i := by
  induction hs with
  | nil => intro hx; simp [habitMapGet] at hx
  | cons a t ih =>
    intro hx
    unfold habitMapGet at hx
    split at hx
    next h' heq =>
      injection hx with hh
      subst hh
      obtain ⟨hm, hid⟩ := ih heq
      exact ⟨List.mem_cons_of_mem a hm, hid⟩
    next heq =>
      split at hx
      next hbeq =>
        injection hx with hh
        subst hh
        exact ⟨List.mem_cons_self a t, beq_iff_eq.mp hbeq⟩
      next => cases hx

theorem habitMapGet_of_exists {hs : List Habit} {i : String}
    (hx : ∃ h ∈ hs, h.id = i) :
    ∃ h', habitMapGet hs i = some h' ∧ h' ∈ hs ∧ h'.id = i := by
  induction hs with
  | nil =>
    obtain ⟨h, hm, _⟩ := hx
    simp at hm
  | cons a t ih =>
    obtain ⟨h, hm, hid⟩ := hx
    unfold habitMapGet
    cases hget : habitMapGet t i with
    | some h' =>
      obtain ⟨hm', hid'⟩ := habitMapGet_mem hget
      exact ⟨h', rfl, List.mem_cons_of_mem a hm', hid'⟩
    | none =>
      rcases List.mem_cons.mp hm with rfl | hmt
      · rw [if_pos (beq_iff_eq.mpr hid)]
        exact ⟨h, rfl, List.mem_cons_self h t, hid⟩
      · obtain ⟨h', hsome, _, _⟩ := ih ⟨h, hmt, hid⟩
        rw [hget] at hsome
        cases hsome

theorem habitMapGet_eq_none {hs : List Habit} {i : String}
    (hx : ∀ h ∈ hs, h.id ≠ i) : habitMapGet hs i = none := by
  cases hget : habitMapGet hs i with
  | none => rfl
  | some h' =>
    obtain ⟨hm, hid⟩ := habitMapGet_mem hget
    exact absurd hid (hx h' hm)

theorem habitMapGet_eq_find {hs : List Habit}
    (hnd : (hs.map Habit.id).Nodup) (i : String) :
    habitMapGet hs i = hs.find? (fun h => h.id == i) := by
  induction hs with
  | nil => rfl
  | cons a t ih =>
    rw [List.map_cons, List.nodup_cons] at hnd
    obtain ⟨hna, hndt⟩ := hnd
    unfold habitMapGet
    by_cases hai : a.id = i
    · have hnone : habitMapGet t i = none := by
        refine habitMapGet_eq_none fun h hm hid => ?_
        apply hna
        rw [hai, ← hid]
        exact List.mem_map_of_mem Habit.id hm
      rw [hnone]
      simp [List.find?_cons, hai]
    · rw [ih hndt]
      cases hfind : t.find? (fun h => h.id == i) with
      | some h' => simp [List.find?_cons, hai, hfind]
      | none => simp [List.find?_cons, hai, hfind]

/-! ## Preservation of the two invariants under guarded actions -/

theorem selectionInvariant_step {s : AppState} {a : Action}
    (hinv : selectionInvariant s) (hsafe : selectionSafeB s a = true) :
    selectionInvariant (step s a) := by
  cases a with
  | setHabits hs =>
    simp only [selectionSafeB, List.all_eq_true, List.any_eq_true, beq_iff_eq] at hsafe
    intro i hi
    simp only [step] at hi ⊢
    exact hsafe i hi
  | addHabit h0 =>
    intro i hi
    simp only [step] at hi ⊢
    obtain ⟨h, hm, hid⟩ := hinv i hi
    exact ⟨h, List.mem_append_left _ hm, hid⟩
  | updateHabit id u =>
    simp only [selectionSafeB, Option.isNone_iff_eq_none] at hsafe
    intro i hi
    simp only [step] at hi ⊢
    obtain ⟨h, hm, hid⟩ := hinv i hi
    refine ⟨_, List.mem_map_of_mem _ hm, ?_⟩
    cases hb : (h.id == id) <;> simp [hb, hid, applyUpdate, hsafe]
  | deleteHabit idd =>
    intro i hi
    simp only [step] at hi ⊢
    rw [List.mem_filter] at hi
    obtain ⟨hiSel, hne⟩ := hi
    obtain ⟨h, hm, hid⟩ := hinv i hiSel
    refine ⟨h, List.mem_filter.mpr ⟨hm, ?_⟩, hid⟩
    rw [hid]
    exact hne
  | reorderHabits newOrder =>
    simp only [selectionSafeB, List.all_eq_true, List.any_eq_true, beq_iff_eq] at hsafe
    intro i hi
    simp only [step] at hi ⊢
    obtain ⟨h', hsome, _, hid'⟩ := habitMapGet_of_exists (hinv i hi)
    refine ⟨h', List.mem_filterMap.mpr ⟨i, ?_, hsome⟩, hid'⟩
    obtain ⟨j, hj, rfl⟩ := hsafe i hi
    exact hj
  | toggleDate habitId date =>
    intro i hi
    simp only [step] at hi ⊢
    obtain ⟨h, hm, hid⟩ := hinv i hi
    refine ⟨_, List.mem_map_of_mem _ hm, ?_⟩
    cases hb : (h.id == habitId) <;> simp [hb, hid]
  | setViewMode m =>
    intro i hi
    simp only [step] at hi ⊢
    exact hinv i hi
  | toggleSelectMode =>
    intro i hi
    simp only [step] at hi ⊢
    cases hb : s.selectMode
    · rw [hb] at hi
      simp only [Bool.not_false, if_pos] at hi
      exact hinv i hi
    · rw [hb] at hi
      simp at hi
  | addSelectedHabit idd =>
    simp only [selectionSafeB, List.any_eq_true, beq_iff_eq] at hsafe
    intro i hi
    simp only [step] at hi ⊢
    rcases mem_jsSetAdd.mp hi with hiSel | rfl
    · exact hinv i hiSel
    · exact hsafe
  | removeSelectedHabit idd =>
    intro i hi
    simp only [step] at hi ⊢
    exact hinv i (mem_jsSetDelete.mp hi).1
  | clearSelectedHabits =>
    intro i hi
    simp only [step] at hi
    simp at hi
  | selectAllHabits =>
    intro i hi
    simp only [step] at hi ⊢
    obtain ⟨h, hm, hid⟩ := List.mem_map.mp (mem_jsSetOfList.mp hi)
    exact ⟨h, hm, hid⟩
  | setHabitToDelete t =>
    intro i hi
    simp only [step] at hi ⊢
    exact hinv i hi
  | setHabitToColor t =>
    intro i hi
    simp only [step] at hi ⊢
    exact hinv i hi
  | setNoteModalHabitId t =>
    intro i hi
    simp only [step] at hi ⊢
    exact hinv i hi
  | addNote habitId note =>
    intro i hi
    simp only [step] at hi ⊢
    obtain ⟨h, hm, hid⟩ := hinv i hi
    refine ⟨_, List.mem_map_of_mem _ hm, ?_⟩
    cases hb : (h.id == habitId) <;> simp [hb, hid]

theorem modeInvariant_step {s : AppState} {a : Action}
    (hinv : modeInvariant s) (hsafe : modeSafeB s a = true) :
    modeInvariant (step s a) := by
  cases a with
  | setHabits hs => intro hfalse; exact hinv hfalse
  | addHabit h0 => intro hfalse; exact hinv hfalse
  | updateHabit id u => intro hfalse; exact hinv hfalse
  | deleteHabit idd =>
    intro hfalse
    simp only [step] at hfalse ⊢
    rw [hinv hfalse]
    rfl
  | reorderHabits newOrder => intro hfalse; exact hinv hfalse
  | toggleDate habitId date => intro hfalse; exact hinv hfalse
  | setViewMode m => intro hfalse; exact hinv hfalse
  | toggleSelectMode =>
    intro hfalse
    simp only [step] at hfalse ⊢
    cases hb : s.selectMode
    · rw [hb] at hfalse
      simp at hfalse
    · simp [hb]
  | addSelectedHabit idd =>
    simp only [modeSafeB] at hsafe
    intro hfalse
    simp only [step] at hfalse
    rw [hsafe] at hfalse
    cases hfalse
  | removeSelectedHabit idd =>
    intro hfalse
    simp only [step] at hfalse ⊢
    rw [jsSetDelete, hinv hfalse]
    rfl
  | clearSelectedHabits =>
    intro hfalse
    simp only [step]
  | selectAllHabits =>
    simp only [modeSafeB] at hsafe
    intro hfalse
    simp only [step] at hfalse
    rw [hsafe] at hfalse
    cases hfalse
  | setHabitToDelete t => intro hfalse; exact hinv hfalse
  | setHabitToColor t => intro hfalse; exact hinv hfalse
  | setNoteModalHabitId t => intro hfalse; exact hinv hfalse
  | addNote habitId note => intro hfalse; exact hinv hfalse

theorem safeRun_selectionInvariant {s : AppState} {as : List Action}
    (hrun : SafeRun selectionSafeB s as) :
    selectionInvariant s → selectionInvariant (run s as) := by
  induction hrun with
  | nil s => exact id
  | cons s a as hsafe htail ih =>
    intro hinv
    simpa [run, List.foldl_cons] using ih (selectionInvariant_step hinv hsafe)

theorem safeRun_modeInvariant {s : AppState} {as : List Action}
    (hrun : SafeRun modeSafeB s as) :
    modeInvariant s → modeInvariant (run s as) := by
  induction hrun with
  | nil s => exact id
  | cons s a as hsafe htail ih =>
    intro hinv
    simpa [run, List.foldl_cons] using ih (modeInvariant_step hinv hsafe)

/-! ## Round-trip serialization (claim C2) -/

theorem roundtrip_pointwise (H : List Habit) :
    List.Forall₂ (fun h' h =>
      h'.id = h.id ∧ h'.name = h.name ∧ h'.color = h.color ∧
      h'.notes = h.notes ∧ h'.createdAt = h.createdAt ∧
      ∀ d, d ∈ h'.completedDates ↔ d ∈ h.completedDates)
      (deserializeHabits (serializeHabits H)) H := by
  induction H with
  | nil => exact List.Forall₂.nil
  | cons h t ih =>
    exact List.Forall₂.cons ⟨rfl, rfl, rfl, rfl, rfl, fun d => mem_jsSetOfList⟩ ih

/-- Claim C2 (confirmed). Serialization round-trip: for every habit list `H`,
`deserializeHabits (serializeHabits H)` has the same length and, pointwise,
the same `id`, `name`, `color`, `notes` and `createdAt`, and a
`completedDates` set with exactly the same date-key members — the
set-to-array-to-set conversion loses nothing and adds nothing. -/
theorem claim2_roundtrip (H : List Habit) :
    (deserializeHabits (serializeHabits H)).length = H.length ∧
    List.Forall₂ (fun h' h =>
      h'.id = h.id ∧ h'.name = h.name ∧ h'.color = h.color ∧
      h'.notes = h.notes ∧ h'.createdAt = h.createdAt ∧
      ∀ d, d ∈ h'.completedDates ↔ d ∈ h.completedDates)
      (deserializeHabits (serializeHabits H)) H := by
  refine ⟨?_, roundtrip_pointwise H⟩
  simp [deserializeHabits, serializeHabits]

/-! ## Reorder correctness (claims C4 and C10) -/

theorem find?_id_self {hs : List Habit} (hnd : (hs.map Habit.id).Nodup)
    {h : Habit} (hm : h ∈ hs) :
    hs.find? (fun x => x.id == h.id) = some h := by
  induction hs with
  | nil => simp at hm
  | cons a t ih =>
    rw [List.map_cons, List.nodup_cons] at hnd
    obtain ⟨hna, hndt⟩ := hnd
    rcases List.mem_cons.mp hm with rfl | hmt
    · simp [List.find?_cons]
    · have hne : a.id ≠ h.id := fun he => hna (he ▸ List.mem_map_of_mem Habit.id hmt)
      simp only [List.find?_cons]
      rw [show (a.id == h.id) = false by simpa using hne]
      exact ih hndt hmt

/-- Under unique ids, map lookup of a present id returns exactly the habit
with that id. -/
theorem habitMapGet_of_mem {hs : List Habit} (hnd : (hs.map Habit.id).Nodup)
    {h : Habit} (hm : h ∈ hs) :
    habitMapGet hs h.id = some h := by
  rw [habitMapGet_eq_find hnd]
  exact find?_id_self hnd hm

/-- Total version of the map lookup, defaulting to a placeholder whose id is
the requested key. -/
def mapGetD (hs : List Habit) (i : String) : Habit :=
  (habitMapGet hs i).getD
    { id := i, name := "", color := "", completedDates := [],
      notes := none, createdAt := none }

theorem filterMap_habitMapGet_eq_map {hs : List Habit} {order : List String}
    (hcov : ∀ i ∈ order, ∃ h ∈ hs, h.id = i) :
    order.filterMap (habitMapGet hs) = order.map (mapGetD hs) := by
  induction order with
  | nil => rfl
  | cons i rest ih =>
    obtain ⟨h', hsome, _, _⟩ := habitMapGet_of_exists (hcov i (List.mem_cons_self i rest))
    rw [List.filterMap_cons, List.map_cons, hsome]
    rw [ih fun j hj => hcov j (List.mem_cons_of_mem i hj)]
    simp [mapGetD, hsome]

theorem mapGetD_id {hs : List Habit} {i : String}
    (hcov : ∃ h ∈ hs, h.id = i) : (mapGetD hs i).id = i := by
  obtain ⟨h', hsome, _, hid⟩ := habitMapGet_of_exists hcov
  simp [mapGetD, hsome, hid]

theorem mapGetD_of_mem {hs : List Habit} (hnd : (hs.map Habit.id).Nodup)
    {h : Habit} (hm : h ∈ hs) : mapGetD hs h.id = h := by
  simp [mapGetD, habitMapGet_of_mem hnd hm]

/-- Claim C4 (confirmed). Reorder correctness, for a store whose habit ids are
unique (the data model's standing uniqueness invariant): if `newOrder` is an
exact permutation of the current ids, `reorderHabits` yields a habit list
whose id sequence is exactly `newOrder` and which is a permutation of the
previous habit list (no habit gained or lost); and any current habit whose id
is absent from `newOrder` is silently dropped from the result. -/
theorem claim4_reorder (s : AppState) (newOrder : List String)
    (hnd : (s.habits.map Habit.id).Nodup) :
    (newOrder.Perm (s.habits.map Habit.id) →
      (step s (Action.reorderHabits newOrder)).habits.map Habit.id = newOrder ∧
      (step s (Action.reorderHabits newOrder)).habits.Perm s.habits) ∧
    (∀ h ∈ s.habits, h.id ∉ newOrder →
      h ∉ (step s (Action.reorderHabits newOrder)).habits) := by
  constructor
  · intro hperm
    have hcov : ∀ i ∈ newOrder, ∃ h ∈ s.habits, h.id = i := by
      intro i hi
      have : i ∈ s.habits.map Habit.id := hperm.mem_iff.mp hi
      obtain ⟨h, hm, hid⟩ := List.mem_map.mp this
      exact ⟨h, hm, hid⟩
    have hrw : (step s (Action.reorderHabits newOrder)).habits
        = newOrder.map (mapGetD s.habits) := by
      simp only [step]
      exact filterMap_habitMapGet_eq_map hcov
    constructor
    · rw [hrw, List.map_map]
      have hidc : ∀ i ∈ newOrder, (Habit.id ∘ mapGetD s.habits) i = i := by
        intro i hi
        exact mapGetD_id (hcov i hi)
      rw [List.map_congr_left hidc]
      simp
    · rw [hrw]
      have hmap : (s.habits.map Habit.id).map (mapGetD s.habits) = s.habits := by
        rw [List.map_map]
        have hc : ∀ h ∈ s.habits, (mapGetD s.habits ∘ Habit.id) h = h := by
          intro h hm
          exact mapGetD_of_mem hnd hm
        rw [List.map_congr_left hc]
        simp
      have hpm := hperm.map (mapGetD s.habits)
      rw [hmap] at hpm
      exact hpm
  · intro h hm hnot hmem
    simp only [step] at hmem
    obtain ⟨i, hiN, hsome⟩ := List.mem_filterMap.mp hmem
    exact hnot ((habitMapGet_mem hsome).2 ▸ hiN)

/-- Under unique ids, the map lookup hits `h` exactly at `h.id`. -/
theorem habitMapGet_eq_some_iff {hs : List Habit}
    (hnd : (hs.map Habit.id).Nodup) {h : Habit} (hm : h ∈ hs) (i : String) :
    habitMapGet hs i = some h ↔ i = h.id := by
  constructor
  · intro hsome
    exact ((habitMapGet_mem hsome).2).symm
  · rintro rfl
    exact habitMapGet_of_mem hnd hm

/-- Claim C10 (confirmed). Implicit reorder edge behaviour, for unique ids:
the result of `reorderHabits(newOrder)` consists exactly of the habits whose
ids occur in `newOrder`, with multiplicity — each current habit occurs in the
result exactly as many times as its id occurs in `newOrder` (so an id listed
twice duplicates its habit), every result element is a current habit, and its
id occurs in `newOrder` (so unknown ids contribute nothing). -/
theorem claim10_reorder_multiplicity (s : AppState) (newOrder : List String)
    (hnd : (s.habits.map Habit.id).Nodup) :
    (∀ h ∈ s.habits,
      (step s (Action.reorderHabits newOrder)).habits.count h = newOrder.count h.id) ∧
    (∀ h' ∈ (step s (Action.reorderHabits newOrder)).habits,
      h' ∈ s.habits ∧ h'.id ∈ newOrder) := by
  constructor
  · intro h hm
    simp only [step]
    induction newOrder with
    | nil => rfl
    | cons i rest ih =>
      rw [List.filterMap_cons]
      cases hget : habitMapGet s.habits i with
      | none =>
        have hne : ¬ i = h.id := by
          intro he
          have hsome := habitMapGet_of_mem hnd hm
          rw [← he] at hsome
          rw [hget] at hsome
          cases hsome
        rw [ih, List.count_cons]
        simp [hne]
      | some h0 =>
        rw [List.count_cons, List.count_cons, ih]
        by_cases hcase : i = h.id
        · have hh0 : h0 = h := by
            have h2 := (habitMapGet_eq_some_iff hnd hm i).mpr hcase
            rw [hget] at h2
            exact Option.some_inj.mp h2
          subst hh0
          simp [hcase]
        · have hne0 : ¬ h0 = h := by
            intro he
            apply hcase
            apply (habitMapGet_eq_some_iff hnd hm i).mp
            rw [hget, he]
          simp [hne0, hcase]
  · intro h' hmem
    simp only [step] at hmem
    obtain ⟨i, hiN, hsome⟩ := List.mem_filterMap.mp hmem
    obtain ⟨hm, hid⟩ := habitMapGet_mem hsome
    exact ⟨hm, hid ▸ hiN⟩

/-! ## Concrete data used by witnesses and counterexamples -/

/-- Concrete habit with id `"a"`. -/
def demoHabit : Habit :=
  { id := "a", name := "Demo", color := "green", completedDates := [],
    notes := none, createdAt := some 1 }

/-- Concrete habit with id `"b"`. -/
def demoHabitB : Habit :=
  { id := "b", name := "Demo B", color := "blue", completedDates := [],
    notes := none, createdAt := some 2 }

/-- Store holding the two demo habits. -/
def demoState2 : AppState := { initialState with habits := [demoHabit, demoHabitB] }

/-- Store holding one habit whose note is a single space. -/
def wsNoteState : AppState :=
  { initialState with habits :=
      [{ id := "a", name := "n", color := "green", completedDates := [],
         notes := some " ", createdAt := some 1 }] }

/-! ## Claim C1: referential selection invariant -/

/-- Claim C1 (amended).  `deleteHabit(id)` removes the habit from `habits`
and `id` from the selection set in one atomic state update (a single `step`),
so no settled state has only one of the two collections updated; and the
global invariant — every selected id names an existing habit — holds along
every action sequence whose actions satisfy `selectionSafeB` where invoked
(`addSelectedHabit` only with an existing id, `setHabits` only with a list
covering the current selection, `updateHabit` without an `id` override,
`reorderHabits` only with an order containing every selected id).  Without
those preconditions the invariant fails, as `claim1_counterexample` shows. -/
theorem claim1_selection_invariant (s : AppState) (as : List Action)
    (hinv : selectionInvariant s) (hrun : SafeRun selectionSafeB s as) :
    selectionInvariant (run s as) ∧
    ∀ (t : AppState) (i : String),
      (∀ h ∈ (step t (Action.deleteHabit i)).habits, h.id ≠ i) ∧
      i ∉ (step t (Action.deleteHabit i)).selectedHabits := by
  refine ⟨safeRun_selectionInvariant hrun hinv, fun t i => ⟨?_, ?_⟩⟩
  · intro h hm
    simp only [step, List.mem_filter] at hm
    simpa using hm.2
  · intro hmem
    simp only [step, List.mem_filter] at hmem
    simpa using hmem.2

/-- Claim C1, counterexample to the unguarded reading: calling
`addSelectedHabit "x"` on the empty initial store settles in a state whose
selection contains `"x"` although no habit has that id. -/
theorem claim1_counterexample :
    ¬ selectionInvariant (run initialState [Action.addSelectedHabit "x"]) := by
  intro h
  obtain ⟨h', hm, _⟩ := h "x" (by simp [run, step, initialState, jsSetAdd])
  simp [run, step, initialState] at hm

/-- Claim C1, witness: a concrete guarded trace — add a habit, select it,
delete it — keeps the invariant, and deletion empties the selection in the
same step. -/
theorem claim1_witness :
    selectionInvariant (run initialState
      [Action.addHabit demoHabit, Action.addSelectedHabit "a",
       Action.deleteHabit "a"]) ∧
    "a" ∉ (step initialState (Action.deleteHabit "a")).selectedHabits := by
  have h := claim1_selection_invariant initialState
    [Action.addHabit demoHabit, Action.addSelectedHabit "a", Action.deleteHabit "a"]
    (by intro i hi; simp [initialState] at hi)
    (by
      refine SafeRun.cons _ _ _ (by decide) ?_
      refine SafeRun.cons _ _ _ (by decide) ?_
      exact SafeRun.cons _ _ _ (by decide) (SafeRun.nil _))
  exact ⟨h.1, (h.2 initialState "a").2⟩

/-! ## Claim C6: select-mode invariant -/

/-- Claim C6 (amended).  A `toggleSelectMode()` call that transitions
`selectMode` from `true` to `false` leaves the selection empty; and the
invariant `selectMode = false → selection empty` holds along every action
sequence in which `addSelectedHabit` and `selectAllHabits` are invoked only
while `selectMode` is `true` (`modeSafeB`).  For arbitrary sequences the
invariant fails, as `claim6_counterexample` shows. -/
theorem claim6_select_mode (s : AppState) (as : List Action)
    (hinv : modeInvariant s) (hrun : SafeRun modeSafeB s as) :
    modeInvariant (run s as) ∧
    ∀ t : AppState, t.selectMode = true →
      (step t Action.toggleSelectMode).selectMode = false ∧
      (step t Action.toggleSelectMode).selectedHabits = [] := by
  refine ⟨safeRun_modeInvariant hrun hinv, fun t ht => ⟨?_, ?_⟩⟩
  · simp [step, ht]
  · simp [step, ht]

/-- Claim C6, counterexample to the unguarded reading: `addSelectedHabit "x"`
invoked while `selectMode` is `false` settles in a state with
`selectMode = false` and a non-empty selection. -/
theorem claim6_counterexample :
    ¬ modeInvariant (run initialState [Action.addSelectedHabit "x"]) := by
  intro h
  have hx := h rfl
  simp [run, step, initialState, jsSetAdd] at hx

/-- Claim C6, witness: a concrete guarded trace — toggle select mode on,
select, toggle off — restores the invariant, and toggling off from a
select-mode state clears the selection. -/
theorem claim6_witness :
    modeInvariant (run initialState
      [Action.toggleSelectMode, Action.addSelectedHabit "a",
       Action.toggleSelectMode]) ∧
    (step { initialState with selectMode := true }
      Action.toggleSelectMode).selectedHabits = [] := by
  have h := claim6_select_mode initialState
    [Action.toggleSelectMode, Action.addSelectedHabit "a", Action.toggleSelectMode]
    (fun _ => rfl)
    (by
      refine SafeRun.cons _ _ _ (by decide) ?_
      refine SafeRun.cons _ _ _ (by decide) ?_
      exact SafeRun.cons _ _ _ (by decide) (SafeRun.nil _))
  exact ⟨h.1, (h.2 { initialState with selectMode := true } rfl).2⟩

/-! ## Claim C7: `hasNote` semantics -/

/-- Equality of two habits in a store follows from equality of their ids when
the store's ids are duplicate-free. -/
theorem habit_eq_of_id_eq {hs : List Habit} (hnd : (hs.map Habit.id).Nodup)
    {h h' : Habit} (hm : h ∈ hs) (hm' : h' ∈ hs) (hid : h.id = h'.id) :
    h = h' :=
  List.inj_on_of_nodup_map hnd hm hm' hid

/-- Nonemptiness of a string is equivalent to positive length. -/
theorem string_length_pos {n : String} : 0 < n.length ↔ n ≠ "" := by
  constructor
  · intro hpos he
    subst he
    simp at hpos
  · intro hne
    cases n with
    | mk data =>
      cases data with
      | nil => exact absurd rfl hne
      | cons c cs => simp [String.length]

/-- Claim C7 (amended).  For a store with duplicate-free habit ids,
`hasNote(id)` returns `true` if and only if the habit with that id exists and
its `notes` field is a present, non-empty string — with NO trimming, so a
whitespace-only note counts as a note (the original claim's trimming clause
is refuted by `claim7_counterexample`).  `hasNote` and `getNote` are pure
queries: they are functions of the state and return no new state. -/
theorem claim7_hasNote (s : AppState) (i : String)
    (hnd : (s.habits.map Habit.id).Nodup) :
    hasNote s i = true ↔
      ∃ h ∈ s.habits, h.id = i ∧ ∃ n, h.notes = some n ∧ n ≠ "" := by
  unfold hasNote
  cases hfind : s.habits.find? (fun h => h.id == i) with
  | none =>
    constructor
    · intro hx
      simp at hx
    · rintro ⟨h, hm, hid, -⟩
      have hnone := List.find?_eq_none.mp hfind h hm
      simp [hid] at hnone
  | some h0 =>
    have hid0 : h0.id = i := by simpa using List.find?_some hfind
    have hm0 : h0 ∈ s.habits := List.mem_of_find?_eq_some hfind
    cases hn : h0.notes with
    | none =>
      constructor
      · intro hx
        simp [hn] at hx
      · rintro ⟨h, hm, hid, n, hnote, -⟩
        have heq : h = h0 := habit_eq_of_id_eq hnd hm hm0 (hid.trans hid0.symm)
        rw [heq, hn] at hnote
        cases hnote
    | some n0 =>
      constructor
      · intro hx
        simp [hn] at hx
        exact ⟨h0, hm0, hid0, n0, hn, string_length_pos.mp (by simpa using hx)⟩
      · rintro ⟨h, hm, hid, n, hnote, hne⟩
        have heq : h = h0 := habit_eq_of_id_eq hnd hm hm0 (hid.trans hid0.symm)
        rw [heq, hn] at hnote
        injection hnote with hnn
        subst hnn
        simp [hn]
        simpa using string_length_pos.mpr hne

/-- Modelled from the spec wording of the claim, not from the code: a note
"is a non-empty string after trimming whitespace" exactly when it contains
some non-whitespace character. -/
def trimmedNonempty (n : String) : Bool :=
  n.data.any fun c => !c.isWhitespace

/-- Claim C7, counterexample to the trimming clause: on a habit whose note is
the single space `" "`, `hasNote` returns `true` although the note is
whitespace-only (it trims to the empty string), so `hasNote` does not
implement "non-empty after trimming". -/
theorem claim7_counterexample :
    hasNote wsNoteState "a" = true ∧
    ∀ h ∈ wsNoteState.habits, trimmedNonempty (h.notes.getD "") = false := by
  constructor
  · rfl
  · decide

/-- Claim C7, witness: the amended equivalence applied to the concrete
whitespace-note store, concluding `hasNote = true` from the explicit
non-empty note `" "`. -/
theorem claim7_witness : hasNote wsNoteState "a" = true :=
  (claim7_hasNote wsNoteState "a" (by decide)).mpr
    ⟨{ id := "a", name := "n", color := "green", completedDates := [],
       notes := some " ", createdAt := some 1 },
     by decide, rfl, " ", rfl, by decide⟩

/-! ## Claim C9: immutability of `id` and `createdAt` -/

/-- Actions within the scope of the immutability claim: everything except the
wholesale replacement `setHabits` (the import path, which the claim itself
excludes) and except an `updateHabit` whose partial update explicitly carries
an `id` or `createdAt` field. -/
def preservesIdentity : Action → Prop
  | Action.setHabits _ => False
  | Action.updateHabit _ u => u.id = none ∧ u.createdAt = none
  | _ => True

/-- Claim C9 (amended).  For every action in `preservesIdentity` — all store
actions except `setHabits`, and `updateHabit` restricted to partial updates
that do not themselves carry `id` or `createdAt` — every habit in the
resulting state is either the habit freshly introduced by `addHabit` or
agrees in `id` and `createdAt` with a habit of the previous state.  Without
that restriction the claim fails: `updateHabit` with an `id` field rewrites
the id (`claim9_counterexample`). -/
theorem claim9_id_createdAt_immutable (s : AppState) (a : Action)
    (hp : preservesIdentity a) :
    ∀ h' ∈ (step s a).habits,
      a = Action.addHabit h' ∨
      ∃ h ∈ s.habits, h'.id = h.id ∧ h'.createdAt = h.createdAt := by
  cases a with
  | setHabits hs => exact False.elim hp
  | addHabit h0 =>
    intro h' hm
    simp only [step] at hm
    rcases List.mem_append.mp hm with hm | hm
    · exact Or.inr ⟨h', hm, rfl, rfl⟩
    · rw [List.mem_singleton.mp hm]
      exact Or.inl rfl
  | updateHabit id u =>
    obtain ⟨hid, hca⟩ := hp
    intro h' hm
    simp only [step] at hm
    obtain ⟨h, hm0, hfh⟩ := List.mem_map.mp hm
    right
    refine ⟨h, hm0, ?_⟩
    rw [← hfh]
    cases hb : (h.id == id) <;> simp [hb, applyUpdate, hid, hca]
  | deleteHabit idd =>
    intro h' hm
    simp only [step] at hm
    exact Or.inr ⟨h', (List.mem_filter.mp hm).1, rfl, rfl⟩
  | reorderHabits newOrder =>
    intro h' hm
    simp only [step] at hm
    obtain ⟨i, _, hsome⟩ := List.mem_filterMap.mp hm
    exact Or.inr ⟨h', (habitMapGet_mem hsome).1, rfl, rfl⟩
  | toggleDate habitId date =>
    intro h' hm
    simp only [step] at hm
    obtain ⟨h, hm0, hfh⟩ := List.mem_map.mp hm
    right
    refine ⟨h, hm0, ?_⟩
    rw [← hfh]
    cases hb : (h.id == habitId) <;> simp [hb]
  | setViewMode m =>
    intro h' hm
    exact Or.inr ⟨h', hm, rfl, rfl⟩
  | toggleSelectMode =>
    intro h' hm
    exact Or.inr ⟨h', hm, rfl, rfl⟩
  | addSelectedHabit idd =>
    intro h' hm
    exact Or.inr ⟨h', hm, rfl, rfl⟩
  | removeSelectedHabit idd =>
    intro h' hm
    exact Or.inr ⟨h', hm, rfl, rfl⟩
  | clearSelectedHabits =>
    intro h' hm
    exact Or.inr ⟨h', hm, rfl, rfl⟩
  | selectAllHabits =>
    intro h' hm
    exact Or.inr ⟨h', hm, rfl, rfl⟩
  | setHabitToDelete t =>
    intro h' hm
    exact Or.inr ⟨h', hm, rfl, rfl⟩
  | setHabitToColor t =>
    intro h' hm
    exact Or.inr ⟨h', hm, rfl, rfl⟩
  | setNoteModalHabitId t =>
    intro h' hm
    exact Or.inr ⟨h', hm, rfl, rfl⟩
  | addNote habitId note =>
    intro h' hm
    simp only [step] at hm
    obtain ⟨h, hm0, hfh⟩ := List.mem_map.mp hm
    right
    refine ⟨h, hm0, ?_⟩
    rw [← hfh]
    cases hb : (h.id == habitId) <;> simp [hb]

/-- Claim C9, counterexample: `updateHabit("a", { id: "b" })` rewrites the
existing habit's id from `"a"` to `"b"`, so an arbitrary partial update can
change `id`. -/
theorem claim9_counterexample :
    (step { initialState with habits := [demoHabit] }
      (Action.updateHabit "a" { id := some "b" })).habits.map Habit.id = ["b"] ∧
    ({ initialState with habits := [demoHabit] } : AppState).habits.map Habit.id
      = ["a"] := by
  decide

/-- Claim C9, witness: the amended frame property applied to the concrete
action `addNote "a" "hi"` on the demo store, instantiated at the resulting
habit. -/
theorem claim9_witness :
    Action.addNote "a" "hi" = Action.addHabit { demoHabit with notes := some "hi" } ∨
    ∃ h ∈ ({ initialState with habits := [demoHabit] } : AppState).habits,
      ({ demoHabit with notes := some "hi" } : Habit).id = h.id ∧
      ({ demoHabit with notes := some "hi" } : Habit).createdAt = h.createdAt :=
  claim9_id_createdAt_immutable { initialState with habits := [demoHabit] }
    (Action.addNote "a" "hi") trivial
    { demoHabit with notes := some "hi" } (by decide)

/-! ## Claim C3: import rejection without mutation -/

/-- Claim C3 (confirmed).  Importing text that is not valid JSON fails with
the parse error; a parsed value that is not an object (falsy, or of a
non-object runtime type) fails with the `Invalid JSON format` schema error; a
value whose `habits` field is not an array fails with the
`Missing or invalid habits array` schema error; a `habits` array that yields
zero habits fails with the empty-import error, provided the version check
ran without prompting or throwing (in particular whenever `version` is
absent, as in the spec's `{"habits": []}` input); and the `TypeError` thrown
when a truthy non-string `version` reaches `startsWith` also rejects.  In
every one of these failure cases the returned store state is exactly the
input state, untouched in all fields. -/
theorem claim3_upload_rejects (s : AppState) (cb : Bool) (now : Nat) :
    (∀ e : Unit,
      uploadHabits (Except.error e) cb now s = (s, UploadResult.parseError)) ∧
    (∀ v : Json, jsTruthy v = false ∨ jsTypeofObject v = false →
      uploadHabits (Except.ok v) cb now s = (s, UploadResult.invalidFormat)) ∧
    (∀ v : Json, jsTruthy v = true → jsTypeofObject v = true →
      (∀ xs : List Json, jsonGet v "habits" ≠ some (Json.arr xs)) →
      uploadHabits (Except.ok v) cb now s = (s, UploadResult.missingHabits)) ∧
    (∀ v : Json, jsTruthy v = true → jsTypeofObject v = true →
      jsonGet v "habits" = some (Json.arr []) →
      versionCheck v = VersionCheck.noPrompt ∨
        (versionCheck v = VersionCheck.prompt ∧ cb = true) →
      uploadHabits (Except.ok v) cb now s = (s, UploadResult.emptyImport)) ∧
    (∀ (v : Json) (xs : List Json), jsTruthy v = true → jsTypeofObject v = true →
      jsonGet v "habits" = some (Json.arr xs) →
      versionCheck v = VersionCheck.typeError →
      uploadHabits (Except.ok v) cb now s = (s, UploadResult.versionTypeError)) := by
  refine ⟨fun e => rfl, ?_, ?_, ?_, ?_⟩
  · intro v hv
    rcases hv with hv | hv <;> simp [uploadHabits, hv]
  · intro v ht hto hnot
    cases hg : jsonGet v "habits" with
    | none => simp [uploadHabits, ht, hto, hg]
    | some j =>
      cases j with
      | arr xs => exact absurd hg (hnot xs)
      | null => simp [uploadHabits, ht, hto, hg]
      | bool b => simp [uploadHabits, ht, hto, hg]
      | num n => simp [uploadHabits, ht, hto, hg]
      | str st => simp [uploadHabits, ht, hto, hg]
      | obj fields => simp [uploadHabits, ht, hto, hg]
  · intro v ht hto hg hvc
    rcases hvc with hvc | ⟨hvc, hcb⟩
    · simp [uploadHabits, uploadFinish, ht, hto, hg, hvc]
    · simp [uploadHabits, uploadFinish, ht, hto, hg, hvc, hcb]
  · intro v xs ht hto hg hvc
    simp [uploadHabits, ht, hto, hg, hvc]

/-- Claim C3, witness: the failure shapes — non-JSON text, a bare number
(non-object), `{"foo": 1}` (no habits array), `{"habits": []}` (empty
import), and `{"habits": [], "version": 2}` (truthy non-string version, a
`TypeError` in the source) — all reject and return the initial store
unchanged. -/
theorem claim3_witness :
    uploadHabits (Except.error ()) true 0 initialState
      = (initialState, UploadResult.parseError) ∧
    uploadHabits (Except.ok (Json.num 1)) true 0 initialState
      = (initialState, UploadResult.invalidFormat) ∧
    uploadHabits (Except.ok (Json.obj [("foo", Json.num 1)])) true 0 initialState
      = (initialState, UploadResult.missingHabits) ∧
    uploadHabits (Except.ok (Json.obj [("habits", Json.arr [])])) true 0 initialState
      = (initialState, UploadResult.emptyImport) ∧
    uploadHabits (Except.ok (Json.obj [("habits", Json.arr []),
        ("version", Json.num 2)])) true 0 initialState
      = (initialState, UploadResult.versionTypeError) := by
  have h := claim3_upload_rejects initialState true 0
  refine ⟨h.1 (), h.2.1 (Json.num 1) (Or.inr rfl), ?_, ?_, ?_⟩
  · refine h.2.2.1 _ rfl rfl ?_
    intro xs hxs
    simp [jsonGet, lookupLast] at hxs
  · exact h.2.2.2.1 _ rfl rfl rfl (Or.inl rfl)
  · exact h.2.2.2.2 _ [] rfl rfl rfl rfl

/-! ## Claim C5: import field mapping and color validation -/

/-- Import payload with an unknown color key — the failing input of claim C5:
the JSON text `{"habits":[{"id":"h1","color":"rainbow"}]}`. -/
def rainbowImport : Json :=
  Json.obj [("habits", Json.arr
    [Json.obj [("id", Json.str "h1"), ("color", Json.str "rainbow")]])]

/-- Claim C5 (code bug in the color clause).  The defaulting half of the
claim holds: a missing `name` becomes `"Untitled"`, a missing `color` the
default key `"green"`, a missing `completedDates` the empty set, missing
`notes` the empty string, and a missing `createdAt` the current time.  The
validation half fails: any truthy color string is stored verbatim — importing
`{"habits":[{"id":"h1","color":"rainbow"}]}` succeeds and stores the open
string `"rainbow"`, which is not one of the ten `ColorKey` identifiers. -/
theorem claim5_import_mapping (now : Nat) (h : Json) :
    (jsonGet h "name" = none → (importMapHabit now h).name = "Untitled") ∧
    (jsonGet h "color" = none → (importMapHabit now h).color = "green") ∧
    (jsonGet h "completedDates" = none →
      (importMapHabit now h).completedDates = []) ∧
    (jsonGet h "notes" = none → (importMapHabit now h).notes = some "") ∧
    (jsonGet h "createdAt" = none → (importMapHabit now h).createdAt = some now) ∧
    (∀ c, jsonGet h "color" = some (Json.str c) → c ≠ "" →
      (importMapHabit now h).color = c) ∧
    ((uploadHabits (Except.ok rainbowImport) true 0 initialState).1.habits.map
        Habit.color = ["rainbow"] ∧
      "rainbow" ∉ colorKeys) := by
  refine ⟨?_, ?_, ?_, ?_, ?_, ?_, by decide, by decide⟩
  · intro hx
    simp [importMapHabit, jsStrFieldOr, hx]
  · intro hx
    simp [importMapHabit, jsStrFieldOr, hx]
  · intro hx
    simp [importMapHabit, jsDatesField, hx]
  · intro hx
    simp [importMapHabit, jsStrFieldOr, hx]
  · intro hx
    simp [importMapHabit, jsCreatedAtField, hx]
  · intro c hc hcne
    simp [importMapHabit, jsStrFieldOr, hc, hcne]

/-- Claim C5, witness: the defaulting clauses applied to the concrete element
`{}` (the empty object) at time `7` — every field receives its default. -/
theorem claim5_witness :
    (importMapHabit 7 (Json.obj [])).name = "Untitled" ∧
    (importMapHabit 7 (Json.obj [])).color = "green" ∧
    (importMapHabit 7 (Json.obj [])).completedDates = [] ∧
    (importMapHabit 7 (Json.obj [])).notes = some "" ∧
    (importMapHabit 7 (Json.obj [])).createdAt = some 7 := by
  have h := claim5_import_mapping 7 (Json.obj [])
  exact ⟨h.1 rfl, h.2.1 rfl, h.2.2.1 rfl, h.2.2.2.1 rfl, h.2.2.2.2.1 rfl⟩

/-! ## Claim C8: bootstrap seeding -/

/-- Construction of a two-element JS set from two distinct strings. -/
theorem jsSetOfList_pair {a b : String} (hab : a ≠ b) :
    jsSetOfList [a, b] = [a, b] := by
  simp [jsSetOfList, jsSetAdd, List.foldl, Ne.symm hab]

/-- Claim C8 (confirmed).  When durable storage yields no stored habit list
(`loadHabitsFromStorage` returned `none` — key absent, unparsable or invalid
— or an empty list), bootstrap synthesizes exactly one seed habit named
`"Membaca Buku"` with the default theme key `"green"`, whose completed-date
set holds exactly the two date-keys produced by `formatDate` for yesterday
and today (two entries whenever those keys differ), installs it as the sole
habit of the store, and immediately persists it via `saveHabitsToStorage`. -/
theorem claim8_bootstrap (loaded : Option (List Habit)) (freshId : String)
    (today yesterday : SimpleDate) (nowMs : Nat) (nowIso : String) (s : AppState)
    (hempty : loaded = none ∨ loaded = some [])
    (hkeys : formatDate yesterday ≠ formatDate today) :
    ∃ seed : Habit,
      (initLocalStorageSync loaded freshId (formatDate today)
        (formatDate yesterday) nowMs nowIso s).1.habits = [seed] ∧
      seed.name = "Membaca Buku" ∧
      seed.color = "green" ∧
      (∀ d, d ∈ seed.completedDates ↔
        d = formatDate yesterday ∨ d = formatDate today) ∧
      seed.completedDates.length = 2 ∧
      (initLocalStorageSync loaded freshId (formatDate today)
        (formatDate yesterday) nowMs nowIso s).2
        = some (saveHabitsToStorage [seed] nowIso) := by
  have hset := jsSetOfList_pair hkeys
  rcases hempty with rfl | rfl
  · refine ⟨⟨freshId, "Membaca Buku", "green",
        jsSetOfList [formatDate yesterday, formatDate today],
        some "", some nowMs⟩, rfl, rfl, rfl, ?_, ?_, rfl⟩
    · intro d
      rw [mem_jsSetOfList]
      simp
    · rw [hset]
      rfl
  · refine ⟨⟨freshId, "Membaca Buku", "green",
        jsSetOfList [formatDate yesterday, formatDate today],
        some "", some nowMs⟩, rfl, rfl, rfl, ?_, ?_, rfl⟩
    · intro d
      rw [mem_jsSetOfList]
      simp
    · rw [hset]
      rfl

/-- Claim C8, witness: bootstrapping from absent storage on 2025-01-10 yields
the single seed habit with completed dates 2025-01-09 and 2025-01-10 and the
matching persisted payload. -/
theorem claim8_witness :
    ∃ seed : Habit,
      (initLocalStorageSync none "habit-1" (formatDate ⟨2025, 1, 10⟩)
        (formatDate ⟨2025, 1, 9⟩) 5 "iso" initialState).1.habits = [seed] ∧
      seed.name = "Membaca Buku" ∧
      seed.color = "green" ∧
      (∀ d, d ∈ seed.completedDates ↔
        d = formatDate ⟨2025, 1, 9⟩ ∨ d = formatDate ⟨2025, 1, 10⟩) ∧
      seed.completedDates.length = 2 ∧
      (initLocalStorageSync none "habit-1" (formatDate ⟨2025, 1, 10⟩)
        (formatDate ⟨2025, 1, 9⟩) 5 "iso" initialState).2
        = some (saveHabitsToStorage [seed] "iso") :=
  claim8_bootstrap none "habit-1" ⟨2025, 1, 10⟩ ⟨2025, 1, 9⟩ 5 "iso"
    initialState (Or.inl rfl) (by decide)

/-- Claim C4, witness: reordering the two-habit demo store (ids `["a", "b"]`)
by the permutation `["b", "a"]` yields the id sequence `["b", "a"]`. -/
theorem claim4_witness :
    (step demoState2 (Action.reorderHabits ["b", "a"])).habits.map Habit.id
      = ["b", "a"] :=
  ((claim4_reorder demoState2 ["b", "a"] (by decide)).1 (by decide)).1

/-- Claim C10, witness: reordering the two-habit demo store by
`["b", "b", "zzz"]` makes habit `"b"` occur exactly as often as its id does
in the order (twice), while the unmatched id `"zzz"` contributes nothing. -/
theorem claim10_witness :
    (step demoState2 (Action.reorderHabits ["b", "b", "zzz"])).habits.count
        demoHabitB
      = (["b", "b", "zzz"] : List String).count "b" :=
  (claim10_reorder_multiplicity demoState2 ["b", "b", "zzz"] (by decide)).1
    demoHabitB (by decide)

end Rutin
